import Mathlib

/-!
Verification of the operation-identity model (`cirq/ops/gate_operation.py`)
and the Pasqal device legalizer/validator (`cirq/pasqal/pasqal_device.py`).

The Python code is shallowly embedded: gates are values of an abstract type
`G`; the runtime capability query `extension.try_cast(InterchangeableQubitsGate, gate)`
is a function `castFn : G → Option (Nat → Int)` returning, when the cast
succeeds, the gate's `qubit_index_to_equivalence_group_key` map.  Python's
`frozenset` becomes `Finset`, Python's sorted list of `(key, frozenset)`
pairs becomes a list sorted by key (the keys of the group dictionary are
distinct, so Python's tuple comparison never reaches the frozensets).
-/

namespace Spec2Proof

/-- The runtime classes relevant to `GateOperation.__eq__`.  `gateOp` is
`GateOperation` itself, `subGateOp` a proper subclass of it, and `otherOp`
an unrelated `Operation` subtype (one that follows the same
`isinstance(other, type(self))` guard in its own `__eq__`). -/
inductive PyOpType where
  | gateOp
  | subGateOp
  | otherOp
deriving DecidableEq

/-- `isinst t c = true` iff a value whose runtime type is `t` satisfies
`isinstance(value, c)`: `subGateOp` is a subclass of `gateOp`, while
`otherOp` is unrelated to both. -/
def isinst : PyOpType → PyOpType → Bool
  | .gateOp, .gateOp => true
  | .subGateOp, .gateOp => true
  | .subGateOp, .subGateOp => true
  | .otherOp, .otherOp => true
  | _, _ => false

/-- `GateOperation.__init__`: stores the gate and the tuple of qubits.
`otype` records the value's runtime class (Python `type(self)`). -/
structure PyOperation (G Q : Type) where
  otype : PyOpType
  gate : G
  qubits : List Q
deriving DecidableEq

/-- The two possible shapes of `GateOperation._group_interchangeable_qubits()`:
the raw qubit tuple (cast to `InterchangeableQubitsGate` failed) or the
sorted list of `(group key, frozenset of qubits)` pairs. -/
inductive GroupedQubits (Q : Type) where
  | plain : List Q → GroupedQubits Q
  | grouped : List (Int × Finset Q) → GroupedQubits Q
deriving DecidableEq

variable {G Q : Type}

/-- The frozenset built for group key `k`: the qubits sitting at the operand
positions that `qubit_index_to_equivalence_group_key` (here `f`) maps to `k`. -/
def groupMembers [DecidableEq Q] (f : Nat → Int) (qs : List Q) (k : Int) : Finset Q :=
  (((List.finRange qs.length).filter (fun p => decide (f p.val = k))).map
    (fun p => qs.get p)).toFinset

/-- The distinct group keys occurring among positions `0 .. n-1`, in ascending
order — the sort order of `sorted((k, frozenset(v)) for k, v in groups.items())`,
whose tuple comparison is decided by the (distinct) integer keys. -/
def keysOf (f : Nat → Int) (n : Nat) : List Int :=
  (((List.range n).map f).dedup).insertionSort (fun a b => a ≤ b)

/-- `GateOperation._group_interchangeable_qubits`, successful-cast branch:
group the qubits by the key of their position and return the sorted
`(key, frozenset)` association list. -/
def group_interchangeable_qubits [DecidableEq Q] (f : Nat → Int) (qs : List Q) :
    List (Int × Finset Q) :=
  (keysOf f qs.length).map (fun k => (k, groupMembers f qs k))

/-- `GateOperation._group_interchangeable_qubits`, both branches: if the gate
does not cast to `InterchangeableQubitsGate` the result is the qubit tuple
itself, otherwise the grouped form. -/
def grouped_qubits [DecidableEq Q] (castFn : G → Option (Nat → Int))
    (op : PyOperation G Q) : GroupedQubits Q :=
  match castFn op.gate with
  | none => .plain op.qubits
  | some f => .grouped (group_interchangeable_qubits f op.qubits)

/-- `GateOperation._eq_tuple`: `(raw_types.Operation, self.gate, grouped)`.
The first component is the literal class `raw_types.Operation`, identical
for every instance of every subtype, so it is dropped here. -/
def eq_tuple [DecidableEq Q] (castFn : G → Option (Nat → Int))
    (op : PyOperation G Q) : G × GroupedQubits Q :=
  (op.gate, grouped_qubits castFn op)

/-- `GateOperation.__eq__`: `NotImplemented` (here `none`) unless
`isinstance(other, type(self))`, else comparison of the eq tuples. -/
def eqMethod [DecidableEq G] [DecidableEq Q] (castFn : G → Option (Nat → Int))
    (self other : PyOperation G Q) : Option Bool :=
  if isinst other.otype self.otype then
    some (decide (eq_tuple castFn self = eq_tuple castFn other))
  else
    none

/-- Python's `a == b` protocol over `eqMethod`: try `a.__eq__(b)`, on
`NotImplemented` try the reflected `b.__eq__(a)`, and when both sides return
`NotImplemented` fall back to identity `a is b` — `false` for the distinct
instances compared here. -/
def pyEq [DecidableEq G] [DecidableEq Q] (castFn : G → Option (Nat → Int))
    (a b : PyOperation G Q) : Bool :=
  match eqMethod castFn a b with
  | some r => r
  | none =>
    match eqMethod castFn b a with
    | some r => r
    | none => false

/-- `GateOperation.__hash__` is `hash(self._eq_tuple())`: some fixed function
`h` (Python's tuple hash) applied to the eq tuple.  Statements about hashes
quantify over `h`. -/
def op_hash [DecidableEq Q] (castFn : G → Option (Nat → Int))
    (h : G × GroupedQubits Q → Nat) (op : PyOperation G Q) : Nat :=
  h (eq_tuple castFn op)

/-- The qubit list with the entries at positions `i` and `j` exchanged
(used to state the swap claims; `d` is a dummy default, irrelevant when
`i` and `j` are in bounds). -/
def swapAt (qs : List Q) (i j : Nat) (d : Q) : List Q :=
  (qs.set i (qs.getD j d)).set j (qs.getD i d)

theorem swapAt_length (qs : List Q) (i j : Nat) (d : Q) :
    (swapAt qs i j d).length = qs.length := by
  simp [swapAt]

theorem mem_groupMembers [DecidableEq Q] (f : Nat → Int) (qs : List Q) (k : Int)
    (x : Q) :
    x ∈ groupMembers f qs k ↔
      ∃ p : Fin qs.length, f p.val = k ∧ qs.get p = x := by
  simp [groupMembers, List.mem_filter, List.mem_finRange]

theorem getElem_swapAt (qs : List Q) (i j : Nat) (d : Q)
    (p : Nat) (hp : p < qs.length) :
    (swapAt qs i j d).getD p d =
      if p = j then qs.getD i d else if p = i then qs.getD j d else qs.getD p d := by
  have hp2 : p < ((qs.set i (qs.getD j d)).set j (qs.getD i d)).length := by
    simpa using hp
  unfold swapAt
  rw [List.getD_eq_getElem _ _ hp2, List.getElem_set, List.getElem_set,
    List.getD_eq_getElem _ _ hp]
  by_cases h1 : p = j
  · simp [h1]
  · rw [if_neg (fun h => h1 h.symm), if_neg h1]
    by_cases h2 : p = i
    · simp [h2]
    · rw [if_neg (fun h => h2 h.symm), if_neg h2]

theorem swapAt_getD_left (qs : List Q) (i j : Nat) (d : Q) (hi : i < qs.length) :
    (swapAt qs i j d).getD i d = qs.getD j d := by
  rw [getElem_swapAt qs i j d i hi]
  by_cases hij : i = j
  · rw [if_pos hij, hij]
  · rw [if_neg hij, if_pos rfl]

theorem swapAt_getD_right (qs : List Q) (i j : Nat) (d : Q) (hj : j < qs.length) :
    (swapAt qs i j d).getD j d = qs.getD i d := by
  rw [getElem_swapAt qs i j d j hj, if_pos rfl]

theorem swapAt_getD_other (qs : List Q) (i j : Nat) (d : Q) (p : Nat)
    (hp : p < qs.length) (h1 : p ≠ i) (h2 : p ≠ j) :
    (swapAt qs i j d).getD p d = qs.getD p d := by
  rw [getElem_swapAt qs i j d p hp, if_neg h2, if_neg h1]

theorem mem_groupMembers_getD [DecidableEq Q] (f : Nat → Int) (qs : List Q)
    (k : Int) (x : Q) (d : Q) :
    x ∈ groupMembers f qs k ↔ ∃ p, p < qs.length ∧ f p = k ∧ qs.getD p d = x := by
  rw [mem_groupMembers]
  constructor
  · rintro ⟨p, hpk, hpx⟩
    exact ⟨p.val, p.isLt, hpk, by rw [List.getD_eq_get _ _ p.isLt]; exact hpx⟩
  · rintro ⟨p, hp, hpk, hpx⟩
    exact ⟨⟨p, hp⟩, hpk, by rw [← hpx, List.getD_eq_get _ _ hp]⟩

/-- Swapping the qubits at two positions whose indices carry the same
equivalence-group key leaves every group's frozenset unchanged. -/
theorem groupMembers_swapAt [DecidableEq Q] (f : Nat → Int) (qs : List Q)
    (i j : Nat) (d : Q) (hi : i < qs.length) (hj : j < qs.length)
    (hk : f i = f j) (k : Int) :
    groupMembers f (swapAt qs i j d) k = groupMembers f qs k := by
  have hlen : (swapAt qs i j d).length = qs.length := swapAt_length qs i j d
  ext x
  rw [mem_groupMembers_getD f _ k x d, mem_groupMembers_getD f qs k x d]
  constructor
  · rintro ⟨p, hp, hpk, hpx⟩
    rw [hlen] at hp
    by_cases h2 : p = j
    · rw [h2, swapAt_getD_right qs i j d hj] at hpx
      exact ⟨i, hi, by rw [hk, ← h2]; exact hpk, hpx⟩
    · by_cases h1 : p = i
      · rw [h1, swapAt_getD_left qs i j d hi] at hpx
        exact ⟨j, hj, by rw [← hk, ← h1]; exact hpk, hpx⟩
      · rw [swapAt_getD_other qs i j d p hp h1 h2] at hpx
        exact ⟨p, hp, hpk, hpx⟩
  · rintro ⟨p, hp, hpk, hpx⟩
    by_cases h1 : p = i
    · refine ⟨j, by rw [hlen]; exact hj, by rw [← hk, ← h1]; exact hpk, ?_⟩
      rw [swapAt_getD_right qs i j d hj, ← h1]
      exact hpx
    · by_cases h2 : p = j
      · refine ⟨i, by rw [hlen]; exact hi, by rw [hk, ← h2]; exact hpk, ?_⟩
        rw [swapAt_getD_left qs i j d hi, ← h2]
        exact hpx
      · refine ⟨p, by rw [hlen]; exact hp, hpk, ?_⟩
        rw [swapAt_getD_other qs i j d p hp h1 h2]
        exact hpx

theorem isinst_refl (t : PyOpType) : isinst t t = true := by
  cases t <;> rfl

theorem mem_keysOf (f : Nat → Int) (n : Nat) (k : Int) :
    k ∈ keysOf f n ↔ ∃ p, p < n ∧ f p = k := by
  unfold keysOf
  rw [(List.perm_insertionSort _ _).mem_iff]
  simp [List.mem_dedup, List.mem_map, List.mem_range]

theorem group_interchangeable_swapAt [DecidableEq Q] (f : Nat → Int)
    (qs : List Q) (i j : Nat) (d : Q) (hi : i < qs.length) (hj : j < qs.length)
    (hk : f i = f j) :
    group_interchangeable_qubits f (swapAt qs i j d) =
      group_interchangeable_qubits f qs := by
  unfold group_interchangeable_qubits
  rw [swapAt_length]
  exact List.map_congr_left
    (fun k _ => by rw [groupMembers_swapAt f qs i j d hi hj hk k])

/-- For a gate whose key map is injective on the operand positions, the
group built for the key of position `p` is the singleton of the qubit at `p`. -/
theorem groupMembers_of_injective [DecidableEq Q] (f : Nat → Int) (qs : List Q)
    (hinj : ∀ p1 p2, p1 < qs.length → p2 < qs.length → f p1 = f p2 → p1 = p2)
    (p : Nat) (hp : p < qs.length) (d : Q) :
    groupMembers f qs (f p) = {qs.getD p d} := by
  ext x
  rw [mem_groupMembers_getD f qs (f p) x d, Finset.mem_singleton]
  constructor
  · rintro ⟨p2, hp2, hpk, hpx⟩
    rw [← hpx, hinj p2 p hp2 hp hpk]
  · intro hx
    exact ⟨p, hp, rfl, hx.symm⟩

/-- With an injective key map, the grouped form determines the qubit list:
two same-length qubit lists with equal grouped forms are equal. -/
theorem group_interchangeable_injective_inj [DecidableEq Q] (f : Nat → Int)
    (qs1 qs2 : List Q) (hlen : qs1.length = qs2.length)
    (hinj : ∀ p1 p2, p1 < qs1.length → p2 < qs1.length → f p1 = f p2 → p1 = p2)
    (heq : group_interchangeable_qubits f qs1 = group_interchangeable_qubits f qs2) :
    qs1 = qs2 := by
  cases qs1 with
  | nil =>
    cases qs2 with
    | nil => rfl
    | cons a l => exact absurd hlen (by simp)
  | cons a l =>
    refine List.ext_getElem hlen ?_
    intro p h1 h2
    unfold group_interchangeable_qubits at heq
    rw [← hlen, List.map_inj_left] at heq
    have hkey : f p ∈ keysOf f (a :: l).length :=
      (mem_keysOf f (a :: l).length (f p)).mpr ⟨p, h1, rfl⟩
    have hpair := heq (f p) hkey
    have hmem := congrArg Prod.snd hpair
    rw [groupMembers_of_injective f (a :: l) hinj p h1 a,
      groupMembers_of_injective f qs2 (fun p1 p2 hq1 hq2 =>
        hinj p1 p2 (hlen ▸ hq1) (hlen ▸ hq2)) p (hlen ▸ h1) a] at hmem
    have := Finset.singleton_injective hmem
    rw [List.getD_eq_getElem _ _ h1, List.getD_eq_getElem _ _ h2] at this
    exact this

theorem grouped_qubits_eq_some [DecidableEq Q] {castFn : G → Option (Nat → Int)}
    {g : G} {f : Nat → Int} (hcast : castFn g = some f) (t : PyOpType)
    (qs : List Q) :
    grouped_qubits castFn ⟨t, g, qs⟩ =
      .grouped (group_interchangeable_qubits f qs) := by
  unfold grouped_qubits
  dsimp only
  rw [hcast]

theorem grouped_qubits_eq_none [DecidableEq Q] {castFn : G → Option (Nat → Int)}
    {g : G} (hcast : castFn g = none) (t : PyOpType) (qs : List Q) :
    grouped_qubits castFn ⟨t, g, qs⟩ = .plain qs := by
  unfold grouped_qubits
  dsimp only
  rw [hcast]

/-- **C1.** For every Operation whose gate implements
`InterchangeableQubitsGate` (`castFn` succeeds, returning the key map `f`)
and every two operand positions `i`, `j` that `f` maps to the same
equivalence-group key, the Operation `op2` obtained by swapping the qubits
at positions `i` and `j` is `==`-equal to the original and hashes
identically (`__hash__` is `hash(_eq_tuple())`, so the statement quantifies
over every hash function `h` of the eq tuple). -/
theorem interchangeable_swap_preserves_eq_and_hash [DecidableEq G] [DecidableEq Q]
    (castFn : G → Option (Nat → Int)) (op op2 : PyOperation G Q)
    (f : Nat → Int) (i j : Nat) (d : Q)
    (hcast : castFn op.gate = some f) (hk : f i = f j)
    (hi : i < op.qubits.length) (hj : j < op.qubits.length)
    (hty : op2.otype = op.otype) (hg : op2.gate = op.gate)
    (hqs : op2.qubits = swapAt op.qubits i j d) :
    pyEq castFn op op2 = true ∧
      ∀ h : G × GroupedQubits Q → Nat,
        op_hash castFn h op2 = op_hash castFn h op := by
  obtain ⟨t, g, qs⟩ := op
  obtain ⟨t2, g2, qs2⟩ := op2
  dsimp only at hcast hi hj hty hg hqs
  subst hty hg hqs
  have htuple : eq_tuple castFn (⟨t2, g2, swapAt qs i j d⟩ : PyOperation G Q) =
      eq_tuple castFn ⟨t2, g2, qs⟩ := by
    unfold eq_tuple
    dsimp only
    rw [grouped_qubits_eq_some hcast, grouped_qubits_eq_some hcast,
      group_interchangeable_swapAt f qs i j d hi hj hk]
  constructor
  · unfold pyEq eqMethod
    dsimp only
    rw [isinst_refl, if_pos rfl, htuple]
    simp
  · intro h
    unfold op_hash
    rw [htuple]

/-- The capability query used by the witnesses: gate `0` implements
`InterchangeableQubitsGate` with every position in group `0`; gate `1`
implements it with the identity key map (all keys distinct); other gates
do not implement it. -/
def castFnW : Nat → Option (Nat → Int) :=
  fun g => if g = 0 then some (fun _ => 0) else
    if g = 1 then some (fun p => (p : Int)) else none

theorem interchangeable_swap_witness :
    castFnW 0 = some (fun _ => (0 : Int)) ∧
      pyEq castFnW (⟨.gateOp, 0, [5, 7]⟩ : PyOperation Nat Nat)
        ⟨PyOpType.gateOp, 0, swapAt [5, 7] 0 1 0⟩ = true :=
  ⟨rfl,
    (interchangeable_swap_preserves_eq_and_hash castFnW
      (⟨.gateOp, 0, [5, 7]⟩ : PyOperation Nat Nat)
      (⟨.gateOp, 0, swapAt [5, 7] 0 1 0⟩ : PyOperation Nat Nat)
      (fun _ => 0) 0 1 0 rfl rfl (by decide) (by decide) rfl rfl rfl).1⟩

/-- **C6.** For every Operation whose gate either does not cast to
`InterchangeableQubitsGate` or maps every operand position to a distinct
equivalence-group key, every permutation of the qubit list that actually
changes the sequence yields an Operation that is `==`-unequal to the
original. -/
theorem non_interchangeable_permutation_not_eq [DecidableEq G] [DecidableEq Q]
    (castFn : G → Option (Nat → Int)) (op op2 : PyOperation G Q)
    (hperm : op2.qubits.Perm op.qubits) (hne : op2.qubits ≠ op.qubits)
    (hty : op2.otype = op.otype) (hg : op2.gate = op.gate)
    (hgate : castFn op.gate = none ∨
      ∃ f, castFn op.gate = some f ∧
        ∀ p1 p2, p1 < op.qubits.length → p2 < op.qubits.length →
          f p1 = f p2 → p1 = p2) :
    pyEq castFn op op2 = false := by
  obtain ⟨t, g, qs⟩ := op
  obtain ⟨t2, g2, qs2⟩ := op2
  dsimp only at hperm hne hty hg hgate
  subst hty hg
  have htuple : eq_tuple castFn (⟨t2, g2, qs⟩ : PyOperation G Q) ≠
      eq_tuple castFn (⟨t2, g2, qs2⟩ : PyOperation G Q) := by
    intro heq
    unfold eq_tuple at heq
    dsimp only at heq
    rcases hgate with hnone | ⟨f, hsome, hinj⟩
    · rw [grouped_qubits_eq_none hnone, grouped_qubits_eq_none hnone] at heq
      exact hne (GroupedQubits.plain.inj (congrArg Prod.snd heq)).symm
    · rw [grouped_qubits_eq_some hsome, grouped_qubits_eq_some hsome] at heq
      have hgr := GroupedQubits.grouped.inj (congrArg Prod.snd heq)
      exact hne (group_interchangeable_injective_inj f qs qs2
        hperm.length_eq.symm hinj hgr).symm
  unfold pyEq eqMethod
  dsimp only
  rw [isinst_refl, if_pos rfl]
  simp only [decide_eq_false_iff_not]
  exact htuple

theorem non_interchangeable_permutation_witness :
    ([(6 : Nat), 5].Perm [5, 6] ∧ ([(6 : Nat), 5] ≠ [5, 6])) ∧
      pyEq castFnW (⟨.gateOp, 1, [5, 6]⟩ : PyOperation Nat Nat)
        ⟨PyOpType.gateOp, 1, [6, 5]⟩ = false :=
  ⟨⟨by decide, by decide⟩,
    non_interchangeable_permutation_not_eq castFnW
      (⟨.gateOp, 1, [5, 6]⟩ : PyOperation Nat Nat)
      (⟨.gateOp, 1, [6, 5]⟩ : PyOperation Nat Nat) (by decide) (by decide)
      rfl rfl
      (Or.inr ⟨fun p => (p : Int), rfl, fun p1 p2 _ _ h => Int.ofNat.inj h⟩)⟩

/-- **C7 counterexample.** The claim says Operations of different
Operation subtypes are never equal.  But `__eq__` guards only with
`isinstance(other, type(self))`: an instance of a proper *subclass* of
`GateOperation` (which is a different Operation subtype) with the same gate
and qubits passes that guard and compares equal — the eq tuple does not
record the concrete subtype (its first component is the fixed class
`raw_types.Operation`). -/
theorem different_subtype_eq_counterexample :
    (PyOpType.gateOp ≠ PyOpType.subGateOp) ∧
      pyEq castFnW (⟨.gateOp, 2, [5]⟩ : PyOperation Nat Nat)
        ⟨PyOpType.subGateOp, 2, [5]⟩ = true := by
  exact ⟨by decide, by decide⟩

/-- **C7 amended.** Two Operations whose runtime types are *unrelated*
(neither an instance of the other's type) are never equal: both `__eq__`
calls return `NotImplemented` and Python's `==` falls back to identity,
which is false for distinct instances.  (An instance of a proper subclass
may still equal an instance of the parent class.) -/
theorem unrelated_subtype_never_eq [DecidableEq G] [DecidableEq Q]
    (castFn : G → Option (Nat → Int)) (a b : PyOperation G Q)
    (hab : isinst b.otype a.otype = false)
    (hba : isinst a.otype b.otype = false) :
    pyEq castFn a b = false := by
  unfold pyEq eqMethod
  rw [hab, hba]
  simp

theorem unrelated_subtype_never_eq_witness :
    isinst PyOpType.otherOp PyOpType.gateOp = false ∧
      isinst PyOpType.gateOp PyOpType.otherOp = false ∧
      pyEq castFnW (⟨.gateOp, 2, [5]⟩ : PyOperation Nat Nat)
        ⟨PyOpType.otherOp, 2, [5]⟩ = false :=
  ⟨rfl, rfl,
    unrelated_subtype_never_eq castFnW (⟨.gateOp, 2, [5]⟩ : PyOperation Nat Nat)
      ⟨PyOpType.otherOp, 2, [5]⟩ rfl rfl⟩

theorem groupMembers_nonempty_iff [DecidableEq Q] (f : Nat → Int) (qs : List Q)
    (k : Int) :
    (groupMembers f qs k).Nonempty ↔ ∃ p, p < qs.length ∧ f p = k := by
  constructor
  · rintro ⟨x, hx⟩
    rw [mem_groupMembers] at hx
    obtain ⟨p, hpk, _⟩ := hx
    exact ⟨p.val, p.isLt, hpk⟩
  · rintro ⟨p, hp, hpk⟩
    exact ⟨qs.get ⟨p, hp⟩, (mem_groupMembers f qs k _).mpr ⟨⟨p, hp⟩, hpk, rfl⟩⟩

theorem groupMembers_eq_empty [DecidableEq Q] (f : Nat → Int) (qs : List Q)
    (k : Int) (h : ∀ p, p < qs.length → f p ≠ k) :
    groupMembers f qs k = ∅ := by
  ext x
  rw [mem_groupMembers]
  simp only [Finset.not_mem_empty, iff_false]
  rintro ⟨p, hpk, _⟩
  exact h p.val p.isLt hpk

theorem keysOf_nodup (f : Nat → Int) (n : Nat) : (keysOf f n).Nodup :=
  ((List.perm_insertionSort _ _).nodup_iff).mpr (List.nodup_dedup _)

theorem keysOf_sorted (f : Nat → Int) (n : Nat) :
    (keysOf f n).Sorted (fun a b => a ≤ b) :=
  List.sorted_insertionSort _ _

/-- Two position ranges that realize the same key sets produce the same
sorted key list. -/
theorem keysOf_eq_of_same_mem (f : Nat → Int) (n1 n2 : Nat)
    (h : ∀ k, (∃ p, p < n1 ∧ f p = k) ↔ (∃ p, p < n2 ∧ f p = k)) :
    keysOf f n1 = keysOf f n2 := by
  refine List.eq_of_perm_of_sorted ?_ (keysOf_sorted f n1) (keysOf_sorted f n2)
  refine List.perm_of_nodup_nodup_toFinset_eq (keysOf_nodup f n1)
    (keysOf_nodup f n2) ?_
  ext k
  rw [List.mem_toFinset, List.mem_toFinset, mem_keysOf, mem_keysOf]
  exact h k

/-- **C10.** For gates implementing `InterchangeableQubitsGate`, equality is
blind to operand multiplicity within a group: two Operations of the same
runtime type with equal gates whose qubit lists produce, for every
equivalence-group key, the same frozenset of qubits are `==`-equal and hash
equal (for every hash function of the eq tuple). -/
theorem interchangeable_multiplicity_blind_eq [DecidableEq G] [DecidableEq Q]
    (castFn : G → Option (Nat → Int)) (a b : PyOperation G Q) (f : Nat → Int)
    (hty : a.otype = b.otype) (hg : a.gate = b.gate)
    (hcast : castFn a.gate = some f)
    (hmem : ∀ k, groupMembers f a.qubits k = groupMembers f b.qubits k) :
    pyEq castFn a b = true ∧
      ∀ h : G × GroupedQubits Q → Nat,
        op_hash castFn h a = op_hash castFn h b := by
  obtain ⟨t1, g1, qs1⟩ := a
  obtain ⟨t2, g2, qs2⟩ := b
  dsimp only at hty hg hcast hmem
  subst hty hg
  have hkeys : keysOf f qs1.length = keysOf f qs2.length := by
    apply keysOf_eq_of_same_mem
    intro k
    rw [← groupMembers_nonempty_iff f qs1 k, ← groupMembers_nonempty_iff f qs2 k,
      hmem k]
  have htuple : eq_tuple castFn (⟨t1, g1, qs1⟩ : PyOperation G Q) =
      eq_tuple castFn (⟨t1, g1, qs2⟩ : PyOperation G Q) := by
    unfold eq_tuple
    dsimp only
    rw [grouped_qubits_eq_some hcast, grouped_qubits_eq_some hcast]
    unfold group_interchangeable_qubits
    rw [hkeys]
    refine congrArg (Prod.mk g1) ?_
    refine congrArg GroupedQubits.grouped (List.map_congr_left ?_)
    intro k _
    rw [hmem k]
  constructor
  · unfold pyEq eqMethod
    dsimp only
    rw [isinst_refl, if_pos rfl, htuple]
    simp
  · intro h
    unfold op_hash
    rw [htuple]

theorem interchangeable_multiplicity_witness :
    pyEq castFnW (⟨.gateOp, 0, [3, 3, 4]⟩ : PyOperation Nat Nat)
      ⟨PyOpType.gateOp, 0, [3, 4, 4]⟩ = true :=
  (interchangeable_multiplicity_blind_eq castFnW
    (⟨.gateOp, 0, [3, 3, 4]⟩ : PyOperation Nat Nat)
    (⟨.gateOp, 0, [3, 4, 4]⟩ : PyOperation Nat Nat) (fun _ => 0) rfl rfl rfl
    (by
      intro k
      by_cases hk : (0 : Int) = k
      · rw [← hk]
        decide
      · rw [groupMembers_eq_empty _ _ _ (fun p _ => hk),
          groupMembers_eq_empty _ _ _ (fun p _ => hk)])).1

/-- Modelled from the spec: `cirq.pasqal.ThreeDGridQubit` is declared in
this repository but outside the excerpt.  Per the spec a Location is "a
3-axis integer grid coordinate `(row, col, layer)`"; `PasqalDevice.distance`
reads its fields `row`, `col`, `lay`. -/
structure ThreeDGridQubit where
  row : Int
  col : Int
  lay : Int
deriving DecidableEq

/-- A `cirq.Qid` handed to the device: either a `ThreeDGridQubit` or a
qubit of any other type (`validate_operation` and the constructor test
`isinstance(qub, ThreeDGridQubit)`). -/
inductive Qid where
  | grid3 : ThreeDGridQubit → Qid
  | otherQid : Nat → Qid
deriving DecidableEq

/-- The gate kinds `pasqal_device.py` distinguishes by `isinstance`
(`XPowGate`, `YPowGate`, `ZPowGate`, `PhasedXPowGate`, `MeasurementGate`,
`IdentityGate`); `other n` stands for any further gate type. -/
inductive PasqalGate where
  | xPow
  | yPow
  | zPow
  | phasedXPow
  | measurement
  | identity
  | other : Nat → PasqalGate
deriving DecidableEq

/-- A `cirq.ops.Operation` as the device sees it: a `GateOperation` (gate
plus qubit tuple) or an operation of some other `Operation` subtype, for
which `isinstance(operation, cirq.ops.GateOperation)` fails. -/
inductive CirqOperation where
  | gateOp : PasqalGate → List Qid → CirqOperation
  | nonGateOp : Nat → CirqOperation
deriving DecidableEq

/-- The radicand of `PasqalDevice.distance`:
`(p.row - q.row)² + (p.col - q.col)² + (p.lay - q.lay)²`. -/
def sqDist (p q : ThreeDGridQubit) : Int :=
  (p.row - q.row) ^ 2 + (p.col - q.col) ^ 2 + (p.lay - q.lay) ^ 2

/-- `distance(p, q) > r` stated without the square root, so that it is
decidable/executable: for the non-negative radicand `s = sqDist p q`,
`sqrt s > r` iff `r < 0` or `r² < s` — `distance_gt_iff_sqrt` below proves
this equivalent to the real-valued comparison the Python code performs.
The radius `r` ranges over `ℚ`. -/
def distance_gt (p q : ThreeDGridQubit) (r : ℚ) : Bool :=
  decide (r < 0) || decide ((r ^ 2 : ℚ) < ((sqDist p q : Int) : ℚ))

theorem sqDist_nonneg (p q : ThreeDGridQubit) : 0 ≤ sqDist p q :=
  add_nonneg (add_nonneg (sq_nonneg _) (sq_nonneg _)) (sq_nonneg _)

/-- `distance_gt` agrees with the real-valued comparison
`sqrt (sqDist p q) > r` computed by `PasqalDevice.distance`. -/
theorem distance_gt_iff_sqrt (p q : ThreeDGridQubit) (r : ℚ) :
    distance_gt p q r = true ↔ (r : ℝ) < Real.sqrt ((sqDist p q : Int) : ℝ) := by
  unfold distance_gt
  rw [Bool.or_eq_true, decide_eq_true_iff, decide_eq_true_iff]
  constructor
  · rintro (hr | hs)
    · have hr' : (r : ℝ) < 0 := by exact_mod_cast hr
      exact lt_of_lt_of_le hr' (Real.sqrt_nonneg _)
    · refine Real.lt_sqrt_of_sq_lt ?_
      exact_mod_cast hs
  · intro h
    by_cases hr : r < 0
    · exact Or.inl hr
    · refine Or.inr ?_
      have hr' : (0 : ℝ) ≤ (r : ℝ) := by exact_mod_cast not_lt.mp hr
      have := (Real.lt_sqrt hr').mp h
      exact_mod_cast this

/-- `PasqalDevice.__init__` state: the externally supplied `control_radius`
and qubit collection.  The durations and parallelism caps are assigned to
fixed constants on every construction and are exposed as the accessor
functions below. -/
structure PasqalDevice where
  control_radius : ℚ
  qubits : List ThreeDGridQubit
deriving DecidableEq

/-- `self._measurement_duration = 5000 * us` with `us = 1000 ns`, in ns. -/
def PasqalDevice.measurement_duration (_ : PasqalDevice) : Int := 5000 * 1000

/-- `self._gate_duration = 2 * us`, in ns. -/
def PasqalDevice.gate_duration (_ : PasqalDevice) : Int := 2 * 1000

def PasqalDevice.max_parallel_z (_ : PasqalDevice) : Nat := 2

def PasqalDevice.max_parallel_xy (_ : PasqalDevice) : Nat := 2

def PasqalDevice.max_parallel_c (_ : PasqalDevice) : Nat := 10

def PasqalDevice.max_parallel_t (_ : PasqalDevice) : Nat := 1

/-- `qubit_set()` is `frozenset(self.qubits)`. -/
def PasqalDevice.qubit_set (dev : PasqalDevice) : Finset ThreeDGridQubit :=
  dev.qubits.toFinset

/-- `qubit_list()` enumerates `qubit_set()`; `dedup` realizes the
frozenset's deduplication (with a deterministic order — only the length,
the number of distinct device qubits, matters to the validator). -/
def PasqalDevice.qubit_list (dev : PasqalDevice) : List ThreeDGridQubit :=
  dev.qubits.dedup

/-- `PasqalDevice.is_pasqal_device_op`: accepts any `GateOperation` with
more than one qubit, and single-qubit operations of the six listed gate
kinds; rejects every non-`GateOperation`. -/
def is_pasqal_device_op : CirqOperation → Bool
  | .nonGateOp _ => false
  | .gateOp g qs =>
    decide (qs.length > 1) || decide (g = .yPow) || decide (g = .zPow) ||
      decide (g = .xPow) || decide (g = .phasedXPow) ||
      decide (g = .measurement) || decide (g = .identity)

/-- The two `TypeError`s of `PasqalDevice.decompose_operation`. -/
inductive DecomposeError where
  | notAGateOperation : CirqOperation → DecomposeError
  | unsupportedGate : PasqalGate → DecomposeError
deriving DecidableEq

/-- `PasqalDevice.decompose_operation`.  The recursive rewrite engine
`cirq.protocols.decompose(operation, keep=is_pasqal_device_op)` is the
spec's external decomposition collaborator and enters as the parameter
`decomp`.  The final `TypeError` is formatted from `operation.gate`: the
gate of the *original* operation, whichever fragment failed the re-check. -/
def decompose_operation (decomp : CirqOperation → List CirqOperation)
    (operation : CirqOperation) : Except DecomposeError (List CirqOperation) :=
  match operation with
  | .nonGateOp n => .error (.notAGateOperation (.nonGateOp n))
  | .gateOp g qs =>
    let decomposition :=
      if is_pasqal_device_op (.gateOp g qs) then [CirqOperation.gateOp g qs]
      else decomp (.gateOp g qs)
    if decomposition.all is_pasqal_device_op then .ok decomposition
    else .error (.unsupportedGate g)

/-- The `ValueError`s of `PasqalDevice.validate_operation`, in the spec's
error taxonomy. -/
inductive ValidationError where
  | notAnOperation : CirqOperation → ValidationError
  | unsupportedGate : PasqalGate → ValidationError
  | wrongQubitKind : Qid → PasqalGate → ValidationError
  | tooManyParallelControlled : ValidationError
  | operandsTooFar : ThreeDGridQubit → ThreeDGridQubit → ValidationError
  | tooManyParallelZ : ValidationError
  | tooManyParallelXY : ValidationError
deriving DecidableEq

/-- The first qubit of the tuple that is not a `ThreeDGridQubit` (the
`for qub in operation.qubits` isinstance loop). -/
def firstNonGrid (qs : List Qid) : Option Qid :=
  qs.find? (fun q => match q with | .grid3 _ => false | .otherQid _ => true)

/-- The qubit tuple seen as `ThreeDGridQubit`s (exact when `firstNonGrid`
found nothing). -/
def gridQubits (qs : List Qid) : List ThreeDGridQubit :=
  qs.filterMap (fun q => match q with | .grid3 p => some p | .otherQid _ => none)

/-- The first pair `(p, q)` produced by the two nested `for` loops over the
operation's qubits with `distance(p, q) > control_radius`. -/
def firstFarPair (r : ℚ) (gqs : List ThreeDGridQubit) :
    Option (ThreeDGridQubit × ThreeDGridQubit) :=
  gqs.findSome? (fun p =>
    (gqs.find? (fun q => distance_gt p q r)).map (fun q => (p, q)))

/-- The tail of `validate_operation`: the parallel-Z check followed by the
parallel-XY check (each short-circuiting as a `raise` does). -/
def zxyChecks (dev : PasqalDevice) (g : PasqalGate) (qs : List Qid) :
    Option ValidationError :=
  if g = .zPow ∧ qs.length > dev.max_parallel_z then some .tooManyParallelZ
  else if (g = .xPow ∨ g = .yPow ∨ g = .phasedXPow) ∧
      qs.length > dev.max_parallel_xy ∧
      qs.length ≠ dev.qubit_list.length then some .tooManyParallelXY
  else none

/-- `PasqalDevice.validate_operation`: `none` models returning without
raising, `some e` raising `ValueError` `e`; the checks run in source order
and short-circuit at the first failure. -/
def validate_operation (dev : PasqalDevice) (operation : CirqOperation) :
    Option ValidationError :=
  match operation with
  | .nonGateOp n => some (.notAnOperation (.nonGateOp n))
  | .gateOp g qs =>
    if is_pasqal_device_op (.gateOp g qs) = false then some (.unsupportedGate g)
    else match firstNonGrid qs with
    | some q => some (.wrongQubitKind q g)
    | none =>
      if g = .measurement ∨ g = .identity then none
      else if qs.length > dev.max_parallel_c + dev.max_parallel_t then
        some .tooManyParallelControlled
      else if qs.length > 1 then
        match firstFarPair dev.control_radius (gridQubits qs) with
        | some pq => some (.operandsTooFar pq.1 pq.2)
        | none => zxyChecks dev g qs
      else zxyChecks dev g qs

/-- A tagged field of the device, for stating which fields the canonical
value tuple and the serialized projection contain. -/
inductive DeviceField where
  | measurementDuration : Int → DeviceField
  | gateDuration : Int → DeviceField
  | maxParallelZ : Nat → DeviceField
  | maxParallelXY : Nat → DeviceField
  | maxParallelC : Nat → DeviceField
  | maxParallelT : Nat → DeviceField
  | controlRadius : ℚ → DeviceField
  | qubitsField : List ThreeDGridQubit → DeviceField
deriving DecidableEq

def DeviceField.isMaxParallelT : DeviceField → Bool
  | .maxParallelT _ => true
  | _ => false

/-- `PasqalDevice._value_equality_values_`, in source order:
`(_measurement_duration, _gate_duration, _max_parallel_z, _max_parallel_xy,
_max_parallel_c, control_radius, qubits)`. -/
def value_equality_values (dev : PasqalDevice) : List DeviceField :=
  [.measurementDuration dev.measurement_duration,
   .gateDuration dev.gate_duration,
   .maxParallelZ dev.max_parallel_z,
   .maxParallelXY dev.max_parallel_xy,
   .maxParallelC dev.max_parallel_c,
   .controlRadius dev.control_radius,
   .qubitsField dev.qubits]

/-- `PasqalDevice._json_dict_` keeps exactly `control_radius` and
`qubits`. -/
def json_dict (dev : PasqalDevice) : List DeviceField :=
  [.controlRadius dev.control_radius, .qubitsField dev.qubits]

/-- **C9.** A non-`GateOperation` input makes `decompose_operation` raise
the `TypeError` "is not a gate operation" naming the input, for *every*
decomposition collaborator `decomp` — the result does not depend on
`decomp`, i.e. the collaborator is never consulted — even though the input
fails `is_pasqal_device_op`, the condition that otherwise routes an
operation to decomposition. -/
theorem decompose_non_gate_operation_type_error
    (decomp : CirqOperation → List CirqOperation) (n : Nat) :
    decompose_operation decomp (.nonGateOp n) =
        .error (.notAGateOperation (.nonGateOp n)) ∧
      is_pasqal_device_op (.nonGateOp n) = false :=
  ⟨rfl, rfl⟩

/-- **C4.** For every Operation accepted by `is_pasqal_device_op`,
`decompose_operation` returns the one-element list holding that very
operation, for *every* decomposition collaborator `decomp` (the result does
not depend on `decomp`: the collaborator is not invoked). -/
theorem decompose_native_identity
    (decomp : CirqOperation → List CirqOperation) (op : CirqOperation)
    (hnative : is_pasqal_device_op op = true) :
    decompose_operation decomp op = .ok [op] := by
  cases op with
  | nonGateOp n => exact absurd hnative (by simp [is_pasqal_device_op])
  | gateOp g qs => simp [decompose_operation, hnative]

theorem decompose_native_identity_witness :
    is_pasqal_device_op (.gateOp .measurement [.grid3 ⟨0, 0, 0⟩]) = true ∧
      decompose_operation (fun _ => []) (.gateOp .measurement [.grid3 ⟨0, 0, 0⟩]) =
        .ok [.gateOp .measurement [.grid3 ⟨0, 0, 0⟩]] :=
  ⟨rfl, decompose_native_identity (fun _ => [])
    (.gateOp .measurement [.grid3 ⟨0, 0, 0⟩]) rfl⟩

/-- **C2.** For a gate operation that is not native, the collaborator's
result is re-checked elementwise against `is_pasqal_device_op`: if any
element fails the check the call raises the `TypeError` built from the
*original* operation's gate `g` (whichever fragment failed), and if all
elements pass, the collaborator's list is returned as is. -/
theorem decompose_recheck_names_original
    (decomp : CirqOperation → List CirqOperation) (g : PasqalGate)
    (qs : List Qid)
    (hnn : is_pasqal_device_op (.gateOp g qs) = false) :
    ((decomp (.gateOp g qs)).all is_pasqal_device_op = false →
        decompose_operation decomp (.gateOp g qs) =
          .error (.unsupportedGate g)) ∧
      ((decomp (.gateOp g qs)).all is_pasqal_device_op = true →
        decompose_operation decomp (.gateOp g qs) = .ok (decomp (.gateOp g qs))) := by
  constructor <;> intro h <;> simp [decompose_operation, hnn, h]

theorem decompose_recheck_witness :
    is_pasqal_device_op (.gateOp (.other 0) [.grid3 ⟨0, 0, 0⟩]) = false ∧
      ((fun _ => [CirqOperation.gateOp (.other 1) [.grid3 ⟨0, 0, 0⟩]] :
          CirqOperation → List CirqOperation)
        (.gateOp (.other 0) [.grid3 ⟨0, 0, 0⟩])).all is_pasqal_device_op = false ∧
      decompose_operation
          (fun _ => [CirqOperation.gateOp (.other 1) [.grid3 ⟨0, 0, 0⟩]])
          (.gateOp (.other 0) [.grid3 ⟨0, 0, 0⟩]) =
        .error (.unsupportedGate (.other 0)) :=
  ⟨rfl, rfl,
    (decompose_recheck_names_original
      (fun _ => [CirqOperation.gateOp (.other 1) [.grid3 ⟨0, 0, 0⟩]])
      (.other 0) [.grid3 ⟨0, 0, 0⟩] rfl).1 rfl⟩

theorem firstNonGrid_map_grid3 (gqs : List ThreeDGridQubit) :
    firstNonGrid (gqs.map .grid3) = none := by
  unfold firstNonGrid
  rw [List.find?_eq_none]
  intro q hq
  rw [List.mem_map] at hq
  obtain ⟨p, _, rfl⟩ := hq
  exact Bool.false_ne_true

theorem gridQubits_map_grid3 (gqs : List ThreeDGridQubit) :
    gridQubits (gqs.map .grid3) = gqs := by
  induction gqs with
  | nil => rfl
  | cons a l ih => simpa [gridQubits, List.filterMap_cons] using ih

theorem distance_gt_self (p : ThreeDGridQubit) (r : ℚ) (hr : 0 ≤ r) :
    distance_gt p p r = false := by
  unfold distance_gt
  have h0 : sqDist p p = 0 := by simp [sqDist]
  rw [h0, Bool.or_eq_false_iff, decide_eq_false_iff_not, decide_eq_false_iff_not]
  exact ⟨not_lt.mpr hr, by rw [Int.cast_zero]; exact not_lt.mpr (sq_nonneg r)⟩

theorem firstFarPair_eq_none_iff (r : ℚ) (gqs : List ThreeDGridQubit) :
    firstFarPair r gqs = none ↔
      ∀ p ∈ gqs, ∀ q ∈ gqs, distance_gt p q r = false := by
  unfold firstFarPair
  rw [List.findSome?_eq_none_iff]
  constructor
  · intro h p hp q hq
    have := h p hp
    rw [Option.map_eq_none', List.find?_eq_none] at this
    exact Bool.not_eq_true _ ▸ (this q hq)
  · intro h p hp
    rw [Option.map_eq_none', List.find?_eq_none]
    intro q hq
    rw [h p hp q hq]
    exact Bool.false_ne_true

theorem firstFarPair_eq_some (r : ℚ) (gqs : List ThreeDGridQubit)
    (p q : ThreeDGridQubit) (h : firstFarPair r gqs = some (p, q)) :
    p ∈ gqs ∧ q ∈ gqs ∧ distance_gt p q r = true := by
  unfold firstFarPair at h
  obtain ⟨a, ha, hfa⟩ := List.exists_of_findSome?_eq_some h
  cases hfind : gqs.find? (fun q2 => distance_gt a q2 r) with
  | none =>
    rw [hfind] at hfa
    exact absurd hfa (by simp)
  | some b =>
    rw [hfind] at hfa
    have hab : (a, b) = (p, q) := by simpa using hfa
    injection hab with h1 h2
    subst h1
    subst h2
    have hfar := List.find?_some hfind
    exact ⟨ha, List.mem_of_find?_eq_some hfind, by simpa using hfar⟩

theorem zxyChecks_ne_operandsTooFar (dev : PasqalDevice) (g : PasqalGate)
    (qs : List Qid) (p q : ThreeDGridQubit) :
    zxyChecks dev g qs ≠ some (.operandsTooFar p q) := by
  unfold zxyChecks
  split_ifs <;> simp

/-- `validate_operation` on an all-grid-qubit gate operation, reduced past
the operation/gate/qubit-kind/measurement-identity/controlled-cap checks to
the reach check and the trailing Z/XY checks. -/
theorem validate_operation_reduce (dev : PasqalDevice) (g : PasqalGate)
    (gqs : List ThreeDGridQubit)
    (hnative : is_pasqal_device_op (.gateOp g (gqs.map .grid3)) = true)
    (hm : g ≠ .measurement) (hid : g ≠ .identity)
    (hc : gqs.length ≤ dev.max_parallel_c + dev.max_parallel_t) :
    validate_operation dev (.gateOp g (gqs.map .grid3)) =
      if 1 < gqs.length then
        match firstFarPair dev.control_radius gqs with
        | some pq => some (.operandsTooFar pq.1 pq.2)
        | none => zxyChecks dev g (gqs.map .grid3)
      else zxyChecks dev g (gqs.map .grid3) := by
  simp only [validate_operation, hnative, firstNonGrid_map_grid3,
    gridQubits_map_grid3, List.length_map]
  rw [if_neg (by simp), if_neg (not_or.mpr ⟨hm, hid⟩),
    if_neg (Nat.not_lt.mpr hc)]

/-- **C3.** For a device with (constructor-guaranteed) non-negative control
radius and a validated multi-operand operation — native gate, operands all
3-D grid qubits, gate neither measurement nor identity, within the
controlled-operation cap, more than one operand — validation proceeds past
the reach check to the trailing Z/XY checks iff every unordered pair of
distinct operands is within `control_radius`.  Otherwise it fails
`operandsTooFar`, naming both members of the first violating pair of the
nested source loops. -/
theorem validate_reach_check (dev : PasqalDevice) (g : PasqalGate)
    (gqs : List ThreeDGridQubit)
    (hr : 0 ≤ dev.control_radius)
    (hnative : is_pasqal_device_op (.gateOp g (gqs.map .grid3)) = true)
    (hm : g ≠ .measurement) (hid : g ≠ .identity)
    (hc : gqs.length ≤ dev.max_parallel_c + dev.max_parallel_t)
    (hlen : 1 < gqs.length) :
    ((∀ p ∈ gqs, ∀ q ∈ gqs, p ≠ q →
        distance_gt p q dev.control_radius = false) →
      validate_operation dev (.gateOp g (gqs.map .grid3)) =
        zxyChecks dev g (gqs.map .grid3)) ∧
    (∀ p q, firstFarPair dev.control_radius gqs = some (p, q) →
      validate_operation dev (.gateOp g (gqs.map .grid3)) =
        some (.operandsTooFar p q)) ∧
    ((∃ p ∈ gqs, ∃ q ∈ gqs, p ≠ q ∧
        distance_gt p q dev.control_radius = true) ↔
      ∃ p q, validate_operation dev (.gateOp g (gqs.map .grid3)) =
        some (.operandsTooFar p q)) := by
  have hred := validate_operation_reduce dev g gqs hnative hm hid hc
  rw [if_pos hlen] at hred
  have hfarval : ∀ p q, firstFarPair dev.control_radius gqs = some (p, q) →
      validate_operation dev (.gateOp g (gqs.map .grid3)) =
        some (.operandsTooFar p q) := by
    intro p q hff
    rw [hred, hff]
  refine ⟨?_, hfarval, ?_, ?_⟩
  · intro hclose
    have hall : ∀ p ∈ gqs, ∀ q ∈ gqs,
        distance_gt p q dev.control_radius = false := by
      intro p hp q hq
      by_cases hpq : p = q
      · rw [hpq]
        exact distance_gt_self q _ hr
      · exact hclose p hp q hq hpq
    rw [hred, (firstFarPair_eq_none_iff _ _).mpr hall]
  · rintro ⟨p, hp, q, hq, _, hfar⟩
    cases hff : firstFarPair dev.control_radius gqs with
    | none =>
      have := (firstFarPair_eq_none_iff _ _).mp hff p hp q hq
      rw [hfar] at this
      cases this
    | some pq =>
      exact ⟨pq.1, pq.2, hfarval pq.1 pq.2 (by rw [hff])⟩
  · rintro ⟨p, q, hval⟩
    cases hff : firstFarPair dev.control_radius gqs with
    | none =>
      rw [hred, hff] at hval
      exact absurd hval (zxyChecks_ne_operandsTooFar dev g _ p q)
    | some pq =>
      have hval2 := hfarval pq.1 pq.2 (by rw [hff])
      have hsome := Option.some.inj (hval2.symm.trans hval)
      injection hsome with h1 h2
      obtain ⟨hp, hq, hfar⟩ :=
        firstFarPair_eq_some dev.control_radius gqs pq.1 pq.2 (by rw [hff])
      rw [h1, h2] at hfar
      refine ⟨p, h1 ▸ hp, q, h2 ▸ hq, ?_, hfar⟩
      intro hpq
      rw [hpq, distance_gt_self q _ hr] at hfar
      cases hfar

theorem validate_reach_check_witness :
    validate_operation ⟨mkRat 3 2, [⟨0, 0, 0⟩, ⟨0, 0, 1⟩]⟩
        (.gateOp (.other 5) ([⟨0, 0, 0⟩, ⟨0, 0, 1⟩].map .grid3)) = none ∧
      validate_operation ⟨mkRat 3 2, [⟨0, 0, 0⟩, ⟨2, 0, 0⟩]⟩
        (.gateOp (.other 5) ([⟨0, 0, 0⟩, ⟨2, 0, 0⟩].map .grid3)) =
          some (.operandsTooFar ⟨0, 0, 0⟩ ⟨2, 0, 0⟩) :=
  ⟨((validate_reach_check ⟨mkRat 3 2, [⟨0, 0, 0⟩, ⟨0, 0, 1⟩]⟩ (.other 5)
      [⟨0, 0, 0⟩, ⟨0, 0, 1⟩] (by decide) (by decide) (by decide) (by decide)
      (by decide) (by decide)).1 (by decide)).trans (by decide),
    (validate_reach_check ⟨mkRat 3 2, [⟨0, 0, 0⟩, ⟨2, 0, 0⟩]⟩ (.other 5)
      [⟨0, 0, 0⟩, ⟨2, 0, 0⟩] (by decide) (by decide) (by decide) (by decide)
      (by decide) (by decide)).2.1 ⟨0, 0, 0⟩ ⟨2, 0, 0⟩ (by decide)⟩

/-- **C5.** For a validated X-, Y- or phased-rotation operation that
reaches the parallel-XY check (all operands grid qubits, within the
controlled-operation cap, and — when multi-operand — within reach),
`validate_operation` fails `tooManyParallelXY` iff the operand count
exceeds `max_parallel_xy` *and* differs from the device's total qubit
count (`qubit_list`'s length): the full-device broadcast is allowed
regardless of the cap, and otherwise validation succeeds. -/
theorem validate_parallel_xy (dev : PasqalDevice) (g : PasqalGate)
    (gqs : List ThreeDGridQubit)
    (hxy : g = .xPow ∨ g = .yPow ∨ g = .phasedXPow)
    (hc : gqs.length ≤ dev.max_parallel_c + dev.max_parallel_t)
    (hreach : gqs.length ≤ 1 ∨ firstFarPair dev.control_radius gqs = none) :
    validate_operation dev (.gateOp g (gqs.map .grid3)) =
      if dev.max_parallel_xy < gqs.length ∧ gqs.length ≠ dev.qubit_list.length
      then some .tooManyParallelXY
      else none := by
  have hnative : is_pasqal_device_op (.gateOp g (gqs.map .grid3)) = true := by
    rcases hxy with h | h | h <;> subst h <;> simp [is_pasqal_device_op]
  have hm : g ≠ .measurement := by
    rcases hxy with h | h | h <;> subst h <;> decide
  have hid : g ≠ .identity := by
    rcases hxy with h | h | h <;> subst h <;> decide
  have hz : g ≠ .zPow := by
    rcases hxy with h | h | h <;> subst h <;> decide
  have hzxy : zxyChecks dev g (gqs.map .grid3) =
      if dev.max_parallel_xy < gqs.length ∧
          gqs.length ≠ dev.qubit_list.length
      then some .tooManyParallelXY else none := by
    unfold zxyChecks
    rw [List.length_map, if_neg (fun hcon => hz hcon.1)]
    by_cases hcond : dev.max_parallel_xy < gqs.length ∧
        gqs.length ≠ dev.qubit_list.length
    · rw [if_pos ⟨hxy, hcond.1, hcond.2⟩, if_pos hcond]
    · rw [if_neg (fun hcon => hcond ⟨hcon.2.1, hcon.2.2⟩), if_neg hcond]
  have hred := validate_operation_reduce dev g gqs hnative hm hid hc
  rcases hreach with hsmall | hnone
  · rw [hred, if_neg (not_lt.mpr hsmall)]
    exact hzxy
  · rw [hred]
    by_cases hlen : 1 < gqs.length
    · rw [if_pos hlen, hnone]
      exact hzxy
    · rw [if_neg hlen]
      exact hzxy

theorem validate_parallel_xy_witness :
    validate_operation ⟨mkRat 10 1, [⟨0, 0, 0⟩, ⟨0, 0, 1⟩, ⟨0, 1, 0⟩]⟩
      (.gateOp .xPow ([⟨0, 0, 0⟩, ⟨0, 0, 1⟩, ⟨0, 1, 0⟩].map .grid3)) = none :=
  (validate_parallel_xy ⟨mkRat 10 1, [⟨0, 0, 0⟩, ⟨0, 0, 1⟩, ⟨0, 1, 0⟩]⟩ .xPow
    [⟨0, 0, 0⟩, ⟨0, 0, 1⟩, ⟨0, 1, 0⟩] (Or.inl rfl) (by decide)
    (Or.inr (by decide))).trans (by decide)

/-- **C8 counterexample.** The claim says the canonical value tuple
contains all four parallelism caps; but `_value_equality_values_` omits
`_max_parallel_t`: at this concrete device no component of the tuple is a
max-parallel-target field. -/
theorem value_tuple_counterexample :
    (value_equality_values ⟨mkRat 3 2, []⟩).all
      (fun x => ! x.isMaxParallelT) = true := by
  rfl

/-- **C8 amended.** The canonical equality tuple contains the two timing
constants, the Z, XY and controlled caps, the control radius and the qubit
collection — the max-parallel-target cap is omitted — while the serialized
projection contains exactly `control_radius` and the qubits. -/
theorem value_tuple_and_json_fields (dev : PasqalDevice) :
    value_equality_values dev =
        [.measurementDuration dev.measurement_duration,
         .gateDuration dev.gate_duration,
         .maxParallelZ dev.max_parallel_z,
         .maxParallelXY dev.max_parallel_xy,
         .maxParallelC dev.max_parallel_c,
         .controlRadius dev.control_radius,
         .qubitsField dev.qubits] ∧
      (∀ x ∈ value_equality_values dev, x.isMaxParallelT = false) ∧
      json_dict dev =
        [.controlRadius dev.control_radius, .qubitsField dev.qubits] := by
  refine ⟨rfl, ?_, rfl⟩
  intro x hx
  simp only [value_equality_values, List.mem_cons, List.not_mem_nil,
    or_false] at hx
  rcases hx with h | h | h | h | h | h | h <;> subst h <;> rfl

theorem value_tuple_and_json_fields_witness :
    DeviceField.isMaxParallelT (.controlRadius (mkRat 3 2)) = false :=
  (value_tuple_and_json_fields ⟨mkRat 3 2, [⟨0, 0, 0⟩]⟩).2.1
    (.controlRadius (mkRat 3 2)) (by decide)

end Spec2Proof
